import Mathlib

/-!
Verification of the prefixdb key-space partitioning layer
(`database/prefixdb/db.go`).

The development shallowly embeds the Go source: byte slices become
`List Nat`, the wrapped `database.Database` capability becomes an ideal
key-value `Store` passed explicitly, the `sync.Pool` of byte buffers
becomes an explicit list of retained arrays, and fallible operations
return an explicit error value.  The hash `hashing.ComputeHash256` and
the `database` package helpers are not part of the sampled source; they
are modelled from the specification (and marked as such).
-/

/-! ## Bytes -/

abbrev Bytes : Type := List Nat

/-! ## SHA-256

Modelled from the spec: `hashing.ComputeHash256` (package
`utils/hashing`, not under the sampled source) must be "a
fixed-output-length, collision-resistant cryptographic hash"; the
repository instantiates it with SHA-256, implemented here directly from
FIPS 180-4 over `Nat` words reduced mod 2^32.  Checked against the
standard test vectors for "", "abc" and the two-block
"abcdbcde...nopq" message. -/

def w32 (x : Nat) : Nat := x % 4294967296

/-- Right-rotation of a 32-bit word by `n` places. -/
def rot32 (n x : Nat) : Nat := ((x >>> n) ||| (x <<< (32 - n))) % 4294967296

/-- The big Σ₀ function of the compression loop. -/
def sumA (x : Nat) : Nat := rot32 2 x ^^^ rot32 13 x ^^^ rot32 22 x

/-- The big Σ₁ function of the compression loop. -/
def sumB (x : Nat) : Nat := rot32 6 x ^^^ rot32 11 x ^^^ rot32 25 x

/-- The small σ₀ function of the message schedule. -/
def schedA (x : Nat) : Nat := rot32 7 x ^^^ rot32 18 x ^^^ (x >>> 3)

/-- The small σ₁ function of the message schedule. -/
def schedB (x : Nat) : Nat := rot32 17 x ^^^ rot32 19 x ^^^ (x >>> 10)

/-- The 64 round constants (fractional cube-root bits of the first 64
primes), in decimal. -/
def shaK : List Nat :=
  [1116352408, 1899447441, 3049323471, 3921009573, 961987163,
   1508970993, 2453635748, 2870763221, 3624381080, 310598401,
   607225278, 1426881987, 1925078388, 2162078206, 2614888103,
   3248222580, 3835390401, 4022224774, 264347078, 604807628,
   770255983, 1249150122, 1555081692, 1996064986, 2554220882,
   2821834349, 2952996808, 3210313671, 3336571891, 3584528711,
   113926993, 338241895, 666307205, 773529912, 1294757372,
   1396182291, 1695183700, 1986661051, 2177026350, 2456956037,
   2730485921, 2820302411, 3259730800, 3345764771, 3516065817,
   3600352804, 4094571909, 275423344, 430227734, 506948616,
   659060556, 883997877, 958139571, 1322822218, 1537002063,
   1747873779, 1955562222, 2024104815, 2227730452, 2361852424,
   2428436474, 2756734187, 3204031479, 3329325298]

structure Hash8 where
  h0 : Nat
  h1 : Nat
  h2 : Nat
  h3 : Nat
  h4 : Nat
  h5 : Nat
  h6 : Nat
  h7 : Nat
deriving DecidableEq, Repr

/-- The eight initial hash words (fractional square-root bits of the
first 8 primes), in decimal. -/
def shaInit : Hash8 :=
  ⟨1779033703, 3144134277, 1013904242, 2773480762,
   1359893119, 2600822924, 528734635, 1541459225⟩

/-- One SHA-256 compression round over the registers a..h with round
constant `kw.1` and schedule word `kw.2`. -/
def shaRound (st : Hash8) (kw : Nat × Nat) : Hash8 :=
  let a := st.h0; let b := st.h1; let c := st.h2; let d := st.h3
  let e := st.h4; let f := st.h5; let g := st.h6; let hh := st.h7
  let t1 := w32 (hh + sumB e + ((e &&& f) ^^^ ((e ^^^ 4294967295) &&& g)) + kw.1 + kw.2)
  let t2 := w32 (sumA a + ((a &&& b) ^^^ (a &&& c) ^^^ (b &&& c)))
  ⟨w32 (t1 + t2), a, b, c, w32 (d + t1), e, f, g⟩

/-- Big-endian bytes to 32-bit words, four at a time. -/
def toWords : List Nat → List Nat
  | b0 :: b1 :: b2 :: b3 :: rest => (b0 * 16777216 + b1 * 65536 + b2 * 256 + b3) :: toWords rest
  | _ => []

def nextWord (ws : List Nat) : Nat :=
  let n := ws.length
  w32 (ws.getD (n - 16) 0 + schedA (ws.getD (n - 15) 0)
    + ws.getD (n - 7) 0 + schedB (ws.getD (n - 2) 0))

/-- Extend the 16-word message schedule by `n` further words. -/
def extendWords : Nat → List Nat → List Nat
  | 0, ws => ws
  | n + 1, ws => extendWords n (ws ++ [nextWord ws])

def addHash (x y : Hash8) : Hash8 :=
  ⟨w32 (x.h0 + y.h0), w32 (x.h1 + y.h1), w32 (x.h2 + y.h2), w32 (x.h3 + y.h3),
   w32 (x.h4 + y.h4), w32 (x.h5 + y.h5), w32 (x.h6 + y.h6), w32 (x.h7 + y.h7)⟩

def processBlock (st : Hash8) (block : List Nat) : Hash8 :=
  let ws := extendWords 48 (toWords block)
  addHash st ((shaK.zip ws).foldl shaRound st)

/-- `toBE n x`: the `n` low-order bytes of `x`, most significant first. -/
def toBE : Nat → Nat → List Nat
  | 0, _ => []
  | n + 1, x => toBE n (x / 256) ++ [x % 256]

/-- FIPS 180-4 padding: a 0x80 byte, zeros to 56 mod 64, then the
message bit length as 8 big-endian bytes. -/
def shaPad (msg : List Nat) : List Nat :=
  let zeros := (119 - msg.length % 64) % 64
  msg ++ [128] ++ List.replicate zeros 0 ++ toBE 8 (msg.length * 8)

/-- Fuel-driven split into 64-byte blocks (any fuel at least the list
length yields all blocks). -/
def blocks : Nat → List Nat → List (List Nat)
  | 0, _ => []
  | _ + 1, [] => []
  | n + 1, l => l.take 64 :: blocks n (l.drop 64)

def digest (st : Hash8) : Bytes :=
  toBE 4 st.h0 ++ toBE 4 st.h1 ++ toBE 4 st.h2 ++ toBE 4 st.h3 ++
  toBE 4 st.h4 ++ toBE 4 st.h5 ++ toBE 4 st.h6 ++ toBE 4 st.h7

/-- Modelled from the spec: `hashing.ComputeHash256` — SHA-256 of the
input, a 32-byte digest. -/
def computeHash256 (msg : Bytes) : Bytes :=
  digest ((blocks (shaPad msg).length (shaPad msg)).foldl processBlock shaInit)

/-! ## Errors

`DBError.closed` stands for `database.ErrClosed`, `DBError.notFound`
for `database.ErrNotFound` (both from the `database` package, outside
the sampled source). -/

inductive DBError : Type where
  | closed : DBError
  | notFound : DBError
deriving DecidableEq, Repr

/-! ## The wrapped Store capability

Modelled from the spec: the underlying `database.Database` is "an
opaque capability" offering point reads/writes; it is taken to be an
ideal in-memory key-value store (an association list on full physical
keys) whose own operations do not fail while it is in use. -/

abbrev Store : Type := List (Bytes × Bytes)

def Store.get : Store → Bytes → Option Bytes
  | [], _ => none
  | (k2, v) :: rest, k => if k2 = k then some v else Store.get rest k

def Store.getE (s : Store) (k : Bytes) : Except DBError Bytes :=
  match s.get k with
  | some v => .ok v
  | none => .error .notFound

def Store.put : Store → Bytes → Bytes → Store
  | [], k, v => [(k, v)]
  | (k2, v2) :: rest, k, v => if k2 = k then (k, v) :: rest else (k2, v2) :: Store.put rest k v

def Store.del : Store → Bytes → Store
  | [], _ => []
  | (k2, v2) :: rest, k => if k2 = k then Store.del rest k else (k2, v2) :: Store.del rest k

def Store.hasKey (s : Store) (k : Bytes) : Bool :=
  (s.get k).isSome

/-- Modelled from the spec: `Stat` on the ideal store (opaque; its open
behavior is irrelevant to the claims). -/
def Store.stat (_ : Store) (_ : String) : Except DBError String :=
  .ok ""

/-- Modelled from the spec: compaction affects physical layout only;
on the ideal store it leaves the contents unchanged. -/
def Store.compact (s : Store) (_ _ : Bytes) : Store :=
  s

/-! ## The buffer pool

`sync.Pool` holding byte buffers of logical length 0; a buffer is
modelled by its retained backing array (its capacity is the array
length).  `poolGet` on an empty pool runs the pool's `New`:
`make([]byte, 0, defaultBufCap)`. -/

abbrev Buffer : Type := List Nat

def defaultBufCap : Nat := 512

def poolGet (pool : List Buffer) : Buffer × List Buffer :=
  match pool with
  | [] => (List.replicate defaultBufCap 0, [])
  | b :: rest => (b, rest)

def poolPut (pool : List Buffer) (b : Buffer) : List Buffer :=
  b :: pool

/-- Go's `copy(dst, src)`: the first `min |dst| |src|` bytes come from
`src`, the rest of `dst` is unchanged. -/
def goCopy (dst src : List Nat) : List Nat :=
  src.take dst.length ++ dst.drop src.length

/-- Go's `copy(dst[off:], src)` viewed on the whole array `dst`. -/
def writeAt (dst : List Nat) (off : Nat) (src : List Nat) : List Nat :=
  dst.take off ++ goCopy (dst.drop off) src

/-! ## The prefixdb Database -/

/-- `prefixdb.Database`: the derived digest `dbPrefix` plus the
open/closed state.  `dbClosed = true` models `db.db == nil` (Close has
released the reference to the wrapped store); the wrapped store's
contents are passed to each operation explicitly, so that several
wrappers can share one physical store. -/
structure Database where
  dbPrefix : Bytes
  dbClosed : Bool
deriving DecidableEq, Repr

/-- Translation of `(*Database).prefix`: take a buffer from the pool;
if its capacity holds `len(dbPrefix)+len(key)` resize it to that
length, else return it to the pool and allocate exactly the needed
length; then copy the digest and the key contiguously.  Returns the
constructed physical key together with the pool as the construction
left it. -/
def Database.physKey (db : Database) (pool : List Buffer) (key : Bytes) : Bytes × List Buffer :=
  let (buf, pool1) := poolGet pool
  let keyLen := db.dbPrefix.length + key.length
  if keyLen ≤ buf.length then
    (writeAt (goCopy (buf.take keyLen) db.dbPrefix) db.dbPrefix.length key, pool1)
  else
    (writeAt (goCopy (List.replicate keyLen 0) db.dbPrefix) db.dbPrefix.length key,
      poolPut pool1 buf)

/-- Translation of `(*Database).Has`.  The returned pool reflects the
borrowed buffer being truncated and put back after the delegated
call. -/
def Database.Has (db : Database) (s : Store) (pool : List Buffer) (key : Bytes) :
    Except DBError Bool × List Buffer :=
  if db.dbClosed then (.error .closed, pool)
  else
    let (pk, pool1) := db.physKey pool key
    (.ok (s.hasKey pk), poolPut pool1 pk)

/-- Translation of `(*Database).Get`. -/
def Database.Get (db : Database) (s : Store) (pool : List Buffer) (key : Bytes) :
    Except DBError Bytes × List Buffer :=
  if db.dbClosed then (.error .closed, pool)
  else
    let (pk, pool1) := db.physKey pool key
    (s.getE pk, poolPut pool1 pk)

/-- Translation of `(*Database).Put`: the error (nil on the ideal
store), the store afterwards, and the pool afterwards. -/
def Database.Put (db : Database) (s : Store) (pool : List Buffer) (key value : Bytes) :
    Option DBError × Store × List Buffer :=
  if db.dbClosed then (some .closed, s, pool)
  else
    let (pk, pool1) := db.physKey pool key
    (none, s.put pk value, poolPut pool1 pk)

/-- Translation of `(*Database).Delete`. -/
def Database.Delete (db : Database) (s : Store) (pool : List Buffer) (key : Bytes) :
    Option DBError × Store × List Buffer :=
  if db.dbClosed then (some .closed, s, pool)
  else
    let (pk, pool1) := db.physKey pool key
    (none, s.del pk, poolPut pool1 pk)

/-- Translation of `(*Database).Stat`. -/
def Database.Stat (db : Database) (s : Store) (name : String) : Except DBError String :=
  if db.dbClosed then .error .closed
  else s.stat name

/-- Translation of `(*Database).Compact`: both bounds are passed
through `prefix`; note the source never returns those two buffers to
the pool. -/
def Database.Compact (db : Database) (s : Store) (pool : List Buffer) (start limit : Bytes) :
    Option DBError × Store × List Buffer :=
  if db.dbClosed then (some .closed, s, pool)
  else
    let (ps, pool1) := db.physKey pool start
    let (pl, pool2) := db.physKey pool1 limit
    (none, s.compact ps pl, pool2)

/-- Translation of `(*Database).Close`: a second Close errors; a first
Close releases the wrapped-store reference (`db.db = nil`).  Returns
the error and the state of the wrapper afterwards. -/
def Database.Close (db : Database) : Option DBError × Database :=
  if db.dbClosed then (some .closed, db)
  else (none, { db with dbClosed := true })

/-! ## Construction and nesting -/

/-- The `database.Database` value handed to `New`/`NewNested`, as far
as construction can observe it: either some non-prefixdb store
(identified by an index), or a `*prefixdb.Database` exposing its
`dbPrefix` field and its wrapped store. -/
inductive DBRef : Type where
  | base : Nat → DBRef
  | wrapped : Bytes → DBRef → DBRef
deriving DecidableEq, Repr

/-- Translation of `NewNested`: hash the supplied bytes once and wrap
the given store as-is. -/
def NewNested (p : Bytes) (db : DBRef) : DBRef :=
  .wrapped (computeHash256 p) db

/-- Translation of `New`: if the target is itself a
`*prefixdb.Database`, concatenate that instance's `dbPrefix` field (the
derived digest) with the new bytes and build over the instance's own
wrapped store; otherwise wrap the target as-is. -/
def New (p : Bytes) (db : DBRef) : DBRef :=
  match db with
  | .wrapped innerDigest innerDb => NewNested (innerDigest ++ p) innerDb
  | .base i => NewNested p (.base i)

/-- Where a logical key physically lands: each wrapper prepends its
digest on the way down to the base store. -/
def DBRef.physicalKey : DBRef → Bytes → Bytes
  | .base _, k => k
  | .wrapped d inner, k => DBRef.physicalKey inner (d ++ k)

/-- Number of wrapper layers above the base store. -/
def DBRef.layers : DBRef → Nat
  | .base _ => 0
  | .wrapped _ inner => DBRef.layers inner + 1

/-- The `Database` value `NewNested` initializes (field view of the
same construction): digest of the supplied bytes, open state. -/
def Database.ofLabel (label : Bytes) : Database :=
  { dbPrefix := computeHash256 label, dbClosed := false }

/-! ## Batches -/

/-- One record of the in-memory replay log (`keyValue` in the
source).  `utils.CopyBytes` makes the stored bytes independent copies;
in this pure embedding copying is the identity. -/
structure keyValue where
  key : Bytes
  value : Bytes
  delete : Bool
deriving DecidableEq, Repr

/-- A Go slice: its elements plus its retained capacity. -/
structure GoSlice (α : Type) where
  data : List α
  cap : Nat
deriving DecidableEq, Repr

/-- `append(s, x)`: grows the backing array when full.  The growth
factor is Go-runtime-defined; no claim depends on it, and the
capacity-sensitive claim quantifies over arbitrary slice states. -/
def GoSlice.push (s : GoSlice α) (x : α) : GoSlice α :=
  { data := s.data ++ [x],
    cap := if s.data.length < s.cap then s.cap else max (2 * s.cap) (s.data.length + 1) }

/-- Modelled from the spec: the excess-capacity threshold factor
`database.MaxExcessCapacityFactor` of the `database` package (not under
the sampled source). -/
def MaxExcessCapacityFactor : Nat := 4

/-- Modelled from the spec: the shrink divisor
`database.CapacityReductionFactor` of the `database` package (not under
the sampled source). -/
def CapacityReductionFactor : Nat := 2

/-- Modelled from the spec: the wrapped store's own batch capability
("the underlying store's own batch abstraction"), an ideal accumulator
of prefixed writes committed atomically by `write`. -/
structure InnerBatch where
  ops : List keyValue
deriving DecidableEq, Repr

def InnerBatch.put (ib : InnerBatch) (k v : Bytes) : InnerBatch :=
  ⟨ib.ops ++ [⟨k, v, false⟩]⟩

def InnerBatch.del (ib : InnerBatch) (k : Bytes) : InnerBatch :=
  ⟨ib.ops ++ [⟨k, [], true⟩]⟩

def InnerBatch.write (ib : InnerBatch) (s : Store) : Store :=
  ib.ops.foldl (fun s2 kv => if kv.delete then s2.del kv.key else s2.put kv.key kv.value) s

def InnerBatch.reset (_ : InnerBatch) : InnerBatch :=
  ⟨[]⟩

/-- `prefixdb.batch`: the embedded underlying-store batch plus the
in-memory replay log (`writes`).  The owning `Database` is passed to
each operation rather than stored, matching how the embedding passes
all shared state explicitly. -/
structure batch where
  Batch : InnerBatch
  writes : GoSlice keyValue
deriving DecidableEq, Repr

/-- Translation of `(*batch).Put` with the outcome of the opaque
embedded `b.Batch.Put` call abstracted as `innerPut` (given the
physical key and value, it yields the inner batch afterwards and the
returned error): the log is appended first, unconditionally; the inner
call's error is forwarded; the borrowed buffer is returned to the pool
on every path. -/
def batch.putWith (db : Database) (pool : List Buffer) (b : batch) (key value : Bytes)
    (innerPut : Bytes → Bytes → InnerBatch × Option DBError) :
    Option DBError × batch × List Buffer :=
  let b1 : batch := { b with writes := b.writes.push ⟨key, value, false⟩ }
  let (pk, pool1) := db.physKey pool key
  let (ib2, err) := innerPut pk value
  (err, { b1 with Batch := ib2 }, poolPut pool1 pk)

/-- Translation of `(*batch).Delete`, abstracted like `putWith`. -/
def batch.delWith (db : Database) (pool : List Buffer) (b : batch) (key : Bytes)
    (innerDel : Bytes → InnerBatch × Option DBError) :
    Option DBError × batch × List Buffer :=
  let b1 : batch := { b with writes := b.writes.push ⟨key, [], true⟩ }
  let (pk, pool1) := db.physKey pool key
  let (ib2, err) := innerDel pk
  (err, { b1 with Batch := ib2 }, poolPut pool1 pk)

/-- `(*batch).Put` against the ideal inner batch (which never
errors). -/
def batch.Put (db : Database) (pool : List Buffer) (b : batch) (key value : Bytes) :
    Option DBError × batch × List Buffer :=
  batch.putWith db pool b key value (fun pk v => (b.Batch.put pk v, none))

/-- `(*batch).Delete` against the ideal inner batch. -/
def batch.Delete (db : Database) (pool : List Buffer) (b : batch) (key : Bytes) :
    Option DBError × batch × List Buffer :=
  batch.delWith db pool b key (fun pk => (b.Batch.del pk, none))

/-- Translation of `(*Database).NewBatch`.  The source reads
`db.db.NewBatch()` with no closed-state check: on a closed wrapper
`db.db` is the nil interface and the call crashes (nil dereference),
so no batch value is produced; this is `none`.  On an open wrapper it
wraps a fresh underlying batch and a zero-value `writes` slice. -/
def Database.NewBatch (db : Database) : Option batch :=
  if db.dbClosed then none
  else some { Batch := ⟨[]⟩, writes := { data := [], cap := 0 } }

/-- Translation of `(*batch).Write`: fails with the closed error when
the owning wrapper is closed, else commits the underlying batch. -/
def batch.Write (db : Database) (b : batch) (s : Store) : Option DBError × Store :=
  if db.dbClosed then (some .closed, s)
  else (none, b.Batch.write s)

/-- Translation of `(*batch).Reset`: shrink the retained log allocation
when its capacity exceeds `MaxExcessCapacityFactor` times its length,
else truncate in place; then reset the underlying batch. -/
def batch.Reset (b : batch) : batch :=
  let writes :=
    if b.writes.data.length * MaxExcessCapacityFactor < b.writes.cap then
      GoSlice.mk [] (b.writes.cap / CapacityReductionFactor)
    else
      { b.writes with data := [] }
  { Batch := b.Batch.reset, writes := writes }

/-- The `database.KeyValueWriter` capability `Replay` targets: fallible
point writes over some state type. -/
structure KeyValueWriter (σ : Type) where
  put : σ → Bytes → Bytes → Except DBError σ
  del : σ → Bytes → Except DBError σ

/-- One replay step: the source's `if keyvalue.delete` branch. -/
def applyKV (w : KeyValueWriter σ) (st : σ) (kv : keyValue) : Except DBError σ :=
  if kv.delete then w.del st kv.key else w.put st kv.key kv.value

/-- Translation of the loop of `(*batch).Replay`: apply each record in
order; stop at the first failing write, returning its error and the
state the prior writes produced. -/
def replayList (w : KeyValueWriter σ) : List keyValue → σ → σ × Option DBError
  | [], st => (st, none)
  | kv :: rest, st =>
    match applyKV w st kv with
    | .ok st2 => replayList w rest st2
    | .error e => (st, some e)

/-- Translation of `(*batch).Replay`. -/
def batch.Replay (w : KeyValueWriter σ) (b : batch) (st : σ) : σ × Option DBError :=
  replayList w b.writes.data st

/-- Applying a record list in order, all-or-first-error (the reference
behavior the spec describes for replay: "re-applies the in-memory log,
in original insertion order"). -/
def runAll (w : KeyValueWriter σ) : List keyValue → σ → Except DBError σ
  | [], st => .ok st
  | kv :: rest, st =>
    match applyKV w st kv with
    | .ok st2 => runAll w rest st2
    | .error e => .error e

/-! ## Iterator -/

/-- Translation of `(*iterator).Key`: strip the first
`len(it.db.dbPrefix)` bytes of the underlying iterator's raw key when
it is long enough, else return the raw key unchanged. -/
def iteratorKey (db : Database) (rawKey : Bytes) : Bytes :=
  if db.dbPrefix.length ≤ rawKey.length then rawKey.drop db.dbPrefix.length
  else rawKey

/-! ## Writers used by concrete replay scenarios -/

/-- A replay target whose point writes always succeed (the ideal
store viewed as a `KeyValueWriter`). -/
def idealWriter : KeyValueWriter Store :=
  ⟨fun st k v => .ok (Store.put st k v), fun st k => .ok (Store.del st k)⟩

/-- A replay target that rejects puts of the key `[9]` and otherwise
behaves like the ideal store, exhibiting a mid-log failure. -/
def failWriter : KeyValueWriter Store :=
  ⟨fun st k v => if k = [9] then .error .notFound else .ok (Store.put st k v),
   fun st k => .ok (Store.del st k)⟩

/-! ## Helper lemmas -/

theorem toBE_length (n x : Nat) : (toBE n x).length = n := by
  induction n generalizing x with
  | zero => rfl
  | succ m ih => simp [toBE, ih]

/-- The digest is always 32 bytes long (the fixed output length the
spec requires of the hash). -/
theorem computeHash256_length (msg : Bytes) : (computeHash256 msg).length = 32 := by
  simp [computeHash256, digest, toBE_length]

/-- Writing `p` at offset 0 and `k` at offset `|p|` into an array of
length exactly `|p| + |k|` yields `p ++ k`, whatever the array held. -/
theorem copyTwice (p k pk0 : List Nat) (h : pk0.length = p.length + k.length) :
    writeAt (goCopy pk0 p) p.length k = p ++ k := by
  have hd : (pk0.drop p.length).length = k.length := by
    simp [List.length_drop]; omega
  unfold writeAt goCopy
  rw [List.take_of_length_le (l := p) (by omega)]
  rw [List.take_left, List.drop_left]
  rw [hd, List.take_length, ← hd, List.drop_length]
  simp

/-- The key-construction algorithm always produces `dbPrefix ++ key`,
independent of the pool's state and the retained buffers' contents. -/
theorem physKey_fst (db : Database) (pool : List Buffer) (k : Bytes) :
    (db.physKey pool k).1 = db.dbPrefix ++ k := by
  rcases hpg : poolGet pool with ⟨buf, pool1⟩
  unfold Database.physKey
  rw [hpg]
  dsimp only
  split
  next h => exact copyTwice _ _ _ (by rw [List.length_take]; omega)
  next h => exact copyTwice _ _ _ (by simp)

theorem physKey_pair (db : Database) (pool : List Buffer) (k : Bytes) :
    db.physKey pool k = (db.dbPrefix ++ k, (db.physKey pool k).2) := by
  have h1 := physKey_fst db pool k
  rcases hpk : db.physKey pool k with ⟨a, b⟩
  rw [hpk] at h1
  simpa using h1

theorem Get_open (db : Database) (s : Store) (pool : List Buffer) (k : Bytes)
    (h : db.dbClosed = false) :
    (db.Get s pool k).1 = s.getE (db.dbPrefix ++ k) := by
  unfold Database.Get
  rw [h, physKey_pair]
  rfl

theorem Has_open (db : Database) (s : Store) (pool : List Buffer) (k : Bytes)
    (h : db.dbClosed = false) :
    (db.Has s pool k).1 = .ok (s.hasKey (db.dbPrefix ++ k)) := by
  unfold Database.Has
  rw [h, physKey_pair]
  rfl

theorem Put_open (db : Database) (s : Store) (pool : List Buffer) (k v : Bytes)
    (h : db.dbClosed = false) :
    (db.Put s pool k v).1 = none ∧ (db.Put s pool k v).2.1 = s.put (db.dbPrefix ++ k) v := by
  unfold Database.Put
  rw [h, physKey_pair]
  exact ⟨rfl, rfl⟩

theorem Delete_open (db : Database) (s : Store) (pool : List Buffer) (k : Bytes)
    (h : db.dbClosed = false) :
    (db.Delete s pool k).1 = none ∧ (db.Delete s pool k).2.1 = s.del (db.dbPrefix ++ k) := by
  unfold Database.Delete
  rw [h, physKey_pair]
  exact ⟨rfl, rfl⟩

theorem Store.get_put_self (s : Store) (k v : Bytes) : (s.put k v).get k = some v := by
  induction s with
  | nil => simp [Store.put, Store.get]
  | cons head tail ih =>
    obtain ⟨k2, v2⟩ := head
    by_cases h : k2 = k
    · simp [Store.put, Store.get, h]
    · simp [Store.put, Store.get, h, ih]

theorem Store.get_put_ne (s : Store) (k k2 v : Bytes) (h : k2 ≠ k) :
    (s.put k v).get k2 = s.get k2 := by
  have hk : ¬ k = k2 := fun he => h he.symm
  induction s with
  | nil => simp [Store.put, Store.get, hk]
  | cons head tail ih =>
    obtain ⟨k3, v3⟩ := head
    by_cases h3 : k3 = k
    · subst h3
      simp [Store.put, Store.get, hk]
    · simp only [Store.put, if_neg h3, Store.get]
      by_cases h4 : k3 = k2 <;> simp [h4, ih]

theorem Store.get_del_self (s : Store) (k : Bytes) : (s.del k).get k = none := by
  induction s with
  | nil => simp [Store.del, Store.get]
  | cons head tail ih =>
    obtain ⟨k2, v2⟩ := head
    by_cases h : k2 = k
    · simp [Store.del, h, ih]
    · simp [Store.del, Store.get, h, ih]

theorem Store.get_del_ne (s : Store) (k k2 : Bytes) (h : k2 ≠ k) :
    (s.del k).get k2 = s.get k2 := by
  have hk : ¬ k = k2 := fun he => h he.symm
  induction s with
  | nil => simp [Store.del, Store.get]
  | cons head tail ih =>
    obtain ⟨k3, v3⟩ := head
    by_cases h3 : k3 = k
    · subst h3
      simp [Store.del, Store.get, hk, ih]
    · simp only [Store.del, if_neg h3, Store.get]
      by_cases h4 : k3 = k2 <;> simp [h4, ih]

/-- Distinct fixed-length digests give disjoint physical key spaces. -/
theorem append_ne_of_ne {p1 p2 a b : Bytes} (hl : p1.length = p2.length) (h : p1 ≠ p2) :
    p1 ++ a ≠ p2 ++ b :=
  fun he => h (List.append_inj_left he hl)

theorem replayList_nil (w : KeyValueWriter σ) (st : σ) :
    replayList w [] st = (st, none) := rfl

theorem replayList_cons (w : KeyValueWriter σ) (kv : keyValue) (rest : List keyValue) (st : σ) :
    replayList w (kv :: rest) st
      = match applyKV w st kv with
        | .ok st2 => replayList w rest st2
        | .error e => (st, some e) := rfl

theorem runAll_nil (w : KeyValueWriter σ) (st : σ) :
    runAll w [] st = .ok st := rfl

theorem runAll_cons (w : KeyValueWriter σ) (kv : keyValue) (rest : List keyValue) (st : σ) :
    runAll w (kv :: rest) st
      = match applyKV w st kv with
        | .ok st2 => runAll w rest st2
        | .error e => .error e := rfl

theorem replayList_of_runAll_ok (w : KeyValueWriter σ) (l : List keyValue) (st st2 : σ)
    (h : runAll w l st = .ok st2) : replayList w l st = (st2, none) := by
  induction l generalizing st with
  | nil =>
    rw [runAll_nil] at h
    cases h
    rfl
  | cons kv rest ih =>
    rw [runAll_cons] at h
    rw [replayList_cons]
    cases hk : applyKV w st kv with
    | ok st3 =>
      rw [hk] at h
      exact ih st3 h
    | error e =>
      rw [hk] at h
      cases h

theorem replayList_halts (w : KeyValueWriter σ) (pre : List keyValue) (kv : keyValue)
    (post : List keyValue) (st st2 : σ) (e : DBError)
    (hpre : runAll w pre st = .ok st2) (hfail : applyKV w st2 kv = .error e) :
    replayList w (pre ++ kv :: post) st = (st2, some e) := by
  induction pre generalizing st with
  | nil =>
    rw [runAll_nil] at hpre
    cases hpre
    rw [List.nil_append, replayList_cons, hfail]
  | cons kv2 rest ih =>
    rw [runAll_cons] at hpre
    rw [List.cons_append, replayList_cons]
    cases hk : applyKV w st kv2 with
    | ok st3 =>
      rw [hk] at hpre
      exact ih st3 hpre
    | error e2 =>
      rw [hk] at hpre
      cases hpre

theorem replayList_append (w : KeyValueWriter σ) (l l2 : List keyValue) (st st2 : σ)
    (h : runAll w l st = .ok st2) :
    replayList w (l ++ l2) st = replayList w l2 st2 := by
  induction l generalizing st with
  | nil =>
    rw [runAll_nil] at h
    cases h
    rfl
  | cons kv rest ih =>
    rw [runAll_cons] at h
    rw [List.cons_append, replayList_cons]
    cases hk : applyKV w st kv with
    | ok st3 =>
      rw [hk] at h
      exact ih st3 h
    | error e =>
      rw [hk] at h
      cases h

/-! ## Claims -/

/-- C1 (amended): `New` over an existing PrefixedStore concatenates
that instance's derived digest field `dbPrefix` (the hash of its
label) — not its pre-hash label — with the new label, hashes the
concatenation once, and wraps the inner instance's own wrapped store
directly: the two-layer construction equals a single `NewNested` layer
whose pre-hash bytes are `hash(L1) || L2`, and every key lands at
`hash(hash(L1) || L2) || key` on the base store, one physical layer
deep. -/
theorem C1_nesting_compression (L1 L2 k : Bytes) (i : Nat) :
    New L2 (New L1 (.base i)) = NewNested (computeHash256 L1 ++ L2) (.base i) ∧
    DBRef.physicalKey (New L2 (New L1 (.base i))) k
      = computeHash256 (computeHash256 L1 ++ L2) ++ k ∧
    DBRef.layers (New L2 (New L1 (.base i))) = 1 :=
  ⟨rfl, rfl, rfl⟩

set_option maxRecDepth 8000 in
/-- C1 counterexample: with labels L1 = [1], L2 = [2] and key [],
the store built with label L2 over a store built with label L1 over
the base does NOT store the key at the physical location used by a
single-layer store built with label `L1 || L2`: the code hashes
`hash(L1) || L2`, not `L1 || L2`. -/
theorem C1_counterexample :
    DBRef.physicalKey (New [2] (New [1] (.base 0))) []
      ≠ DBRef.physicalKey (New ([1] ++ [2]) (.base 0)) [] := by
  decide

/-- C2 (amended): `NewBatch` delegates without any closed-state check;
on an open store it yields a batch; batch `Put`/`Delete` never consult
the closed state (identical results on an open and a closed wrapper
with the same digest), and `Write` alone fails, with the closed error,
when the store is closed by then, committing nothing.  (On a store
already closed at construction time, `NewBatch` itself crashes on the
nil store reference instead of succeeding — see the
counterexample.) -/
theorem C2_batch_factory (p : Bytes) (pool : List Buffer) (b : batch) (k v : Bytes) (s : Store) :
    (Database.NewBatch ⟨p, false⟩).isSome = true ∧
    batch.Put ⟨p, true⟩ pool b k v = batch.Put ⟨p, false⟩ pool b k v ∧
    batch.Delete ⟨p, true⟩ pool b k = batch.Delete ⟨p, false⟩ pool b k ∧
    batch.Write ⟨p, true⟩ b s = (some .closed, s) ∧
    batch.Write ⟨p, false⟩ b s = (none, b.Batch.write s) :=
  ⟨rfl, rfl, rfl, rfl, rfl⟩

/-- C2 counterexample: on a wrapper that is already closed,
`NewBatch` does not succeed: `db.db` is the nil interface and
`db.db.NewBatch()` crashes, producing no batch. -/
theorem C2_counterexample : Database.NewBatch ⟨[], true⟩ = none :=
  rfl

/-- C5: the key-construction algorithm returns exactly
`dbPrefix ++ key` whatever the pool held; the acquired buffer is
consumed when its capacity suffices and is returned to the pool
otherwise (the fresh allocation having exactly the needed length, as
witnessed by the output's length); and `Put` hands the value to the
underlying store verbatim at that key. -/
theorem C5_key_construction (p : Bytes) (s : Store) (pool : List Buffer) (k v : Bytes) :
    (Database.physKey ⟨p, false⟩ pool k).1 = p ++ k ∧
    (Database.physKey ⟨p, false⟩ pool k).2
      = (if p.length + k.length ≤ (poolGet pool).1.length
         then (poolGet pool).2
         else poolPut (poolGet pool).2 (poolGet pool).1) ∧
    Database.Put ⟨p, false⟩ s pool k v
      = (none, s.put (p ++ k) v, poolPut ((Database.physKey ⟨p, false⟩ pool k).2) (p ++ k)) := by
  refine ⟨physKey_fst _ pool k, ?_, ?_⟩
  · rcases hpg : poolGet pool with ⟨buf, pool1⟩
    unfold Database.physKey
    rw [hpg]
    dsimp only
    split
    next h => rfl
    next h => rfl
  · unfold Database.Put
    rw [physKey_pair]
    rfl

/-- C7: the iterator's `Key` strips the first `len(dbPrefix)` bytes of
EVERY raw key at least as long as the digest, by position and
regardless of the raw key's contents; in particular a well-formed raw
key `dbPrefix ++ k` yields `k`; and a raw key shorter than the digest
is returned unchanged rather than read out of bounds. -/
theorem C7_iterator_key (db : Database) (k rawKey : Bytes) :
    (db.dbPrefix.length ≤ rawKey.length →
      iteratorKey db rawKey = rawKey.drop db.dbPrefix.length) ∧
    iteratorKey db (db.dbPrefix ++ k) = k ∧
    (rawKey.length < db.dbPrefix.length → iteratorKey db rawKey = rawKey) := by
  refine ⟨?_, ?_, ?_⟩
  · intro h
    unfold iteratorKey
    rw [if_pos h]
  · unfold iteratorKey
    rw [if_pos (by simp)]
    exact List.drop_left _ _
  · intro h
    unfold iteratorKey
    rw [if_neg (by omega)]

/-- C7 witness: with digest `[0, 1]`, the well-formed raw key
`[0, 1, 5]` yields `[5]`, the long raw key `[7, 8, 9]` (which does not
start with the digest) is still stripped positionally to `[9]`, and
the short raw key `[9]` is returned unchanged. -/
theorem C7_witness :
    iteratorKey ⟨[0, 1], false⟩ [0, 1, 5] = [5] ∧
    iteratorKey ⟨[0, 1], false⟩ [7, 8, 9] = [9] ∧
    iteratorKey ⟨[0, 1], false⟩ [9] = [9] :=
  ⟨(C7_iterator_key ⟨[0, 1], false⟩ [5] [0, 1, 5]).1 (by decide),
   (C7_iterator_key ⟨[0, 1], false⟩ [5] [7, 8, 9]).1 (by decide),
   (C7_iterator_key ⟨[0, 1], false⟩ [5] [9]).2.2 (by decide)⟩

/-- C3: after the first successful Close, every Has/Get/Put/Delete/
Compact/Stat call returns the closed error leaving the underlying
store and the pool untouched, any batch Write against the closed
wrapper returns the closed error without committing, and a second
Close also returns the closed error, leaving the wrapper closed — the
state never reverts. -/
theorem C3_closed_semantics (db db2 : Database) (h : db.Close = (none, db2))
    (s : Store) (pool : List Buffer) (k v start limit : Bytes) (nm : String) (b : batch) :
    db2.dbClosed = true ∧
    db2.Has s pool k = (.error .closed, pool) ∧
    db2.Get s pool k = (.error .closed, pool) ∧
    db2.Put s pool k v = (some .closed, s, pool) ∧
    db2.Delete s pool k = (some .closed, s, pool) ∧
    db2.Compact s pool start limit = (some .closed, s, pool) ∧
    db2.Stat s nm = .error .closed ∧
    batch.Write db2 b s = (some .closed, s) ∧
    db2.Close = (some .closed, db2) := by
  unfold Database.Close at h
  cases hc : db.dbClosed with
  | true =>
    rw [hc] at h
    simp at h
  | false =>
    rw [hc] at h
    simp only [Bool.false_eq_true, if_false, Prod.mk.injEq, true_and] at h
    subst h
    exact ⟨rfl, rfl, rfl, rfl, rfl, rfl, rfl, rfl, rfl⟩

/-- C3 witness: the closed-semantics theorem at the concrete wrapper
closed from `⟨[], false⟩`. -/
theorem C3_witness :
    (⟨[], true⟩ : Database).dbClosed = true ∧
    Database.Has ⟨[], true⟩ [] [] [0] = (.error .closed, []) ∧
    Database.Get ⟨[], true⟩ [] [] [0] = (.error .closed, []) ∧
    Database.Put ⟨[], true⟩ [] [] [0] [1] = (some .closed, [], []) ∧
    Database.Delete ⟨[], true⟩ [] [] [0] = (some .closed, [], []) ∧
    Database.Compact ⟨[], true⟩ [] [] [0] [1] = (some .closed, [], []) ∧
    Database.Stat ⟨[], true⟩ [] "" = .error .closed ∧
    batch.Write ⟨[], true⟩ ⟨⟨[]⟩, ⟨[], 0⟩⟩ [] = (some .closed, []) ∧
    Database.Close ⟨[], true⟩ = (some .closed, ⟨[], true⟩) :=
  C3_closed_semantics ⟨[], false⟩ ⟨[], true⟩ rfl [] [] [0] [1] [0] [1] "" ⟨⟨[]⟩, ⟨[], 0⟩⟩

/-- C4: two wrappers over the same physical store whose derived
digests differ are fully isolated: a Put under the first label leaves
every Get and Has result under the second label unchanged (hence a key
written under L1 is never visible under L2). -/
theorem C4_isolation (L1 L2 : Bytes) (hL : computeHash256 L1 ≠ computeHash256 L2)
    (s : Store) (pool1 pool2 : List Buffer) (k1 k2 v : Bytes) :
    ((Database.ofLabel L2).Get ((Database.ofLabel L1).Put s pool1 k1 v).2.1 pool2 k2).1
      = ((Database.ofLabel L2).Get s pool2 k2).1 ∧
    ((Database.ofLabel L2).Has ((Database.ofLabel L1).Put s pool1 k1 v).2.1 pool2 k2).1
      = ((Database.ofLabel L2).Has s pool2 k2).1 := by
  have hlen : (computeHash256 L1).length = (computeHash256 L2).length := by
    rw [computeHash256_length, computeHash256_length]
  have hne : (Database.ofLabel L2).dbPrefix ++ k2 ≠ (Database.ofLabel L1).dbPrefix ++ k1 := by
    simp only [Database.ofLabel]
    exact append_ne_of_ne hlen.symm (fun he => hL he.symm)
  have hput := (Put_open (Database.ofLabel L1) s pool1 k1 v rfl).2
  constructor
  · rw [Get_open _ _ _ _ rfl, Get_open _ _ _ _ rfl, hput]
    unfold Store.getE
    rw [Store.get_put_ne _ _ _ _ hne]
  · rw [Has_open _ _ _ _ rfl, Has_open _ _ _ _ rfl, hput]
    unfold Store.hasKey
    rw [Store.get_put_ne _ _ _ _ hne]

set_option maxRecDepth 8000 in
/-- C4 witness: labels [0] and [1] have distinct SHA-256 digests, and
the isolation theorem applies at concrete stores and keys. -/
theorem C4_witness :
    ((Database.ofLabel [1]).Get ((Database.ofLabel [0]).Put [] [] [5] [9]).2.1 [] [5]).1
      = ((Database.ofLabel [1]).Get [] [] [5]).1 ∧
    ((Database.ofLabel [1]).Has ((Database.ofLabel [0]).Put [] [] [5] [9]).2.1 [] [5]).1
      = ((Database.ofLabel [1]).Has [] [] [5]).1 :=
  C4_isolation [0] [1] (by decide) [] [] [] [5] [5] [9]

/-- C8: on an open wrapper, a successful Put(k, v) followed by Get(k)
returns v; the value persists across Puts of other keys; a Delete(k)
makes Get(k) report not-found; and after Close, Get(k) reports the
closed error. -/
theorem C8_round_trip (db : Database) (s : Store) (pool pool2 pool3 pool4 : List Buffer)
    (k v : Bytes) (hopen : db.dbClosed = false) (_hk : k ≠ []) :
    (db.Put s pool k v).1 = none ∧
    (db.Get (db.Put s pool k v).2.1 pool2 k).1 = .ok v ∧
    (∀ k2 v2, k2 ≠ k →
      (db.Get ((db.Put (db.Put s pool k v).2.1 pool3 k2 v2).2.1) pool4 k).1 = .ok v) ∧
    (db.Get ((db.Delete (db.Put s pool k v).2.1 pool3 k).2.1) pool4 k).1 = .error .notFound ∧
    ((db.Close).2.Get (db.Put s pool k v).2.1 pool2 k).1 = .error .closed := by
  have hput := Put_open db s pool k v hopen
  refine ⟨hput.1, ?_, ?_, ?_, ?_⟩
  · rw [Get_open _ _ _ _ hopen, hput.2]
    unfold Store.getE
    rw [Store.get_put_self]
  · intro k2 v2 hk2
    have hput2 := Put_open db (db.Put s pool k v).2.1 pool3 k2 v2 hopen
    rw [Get_open _ _ _ _ hopen, hput2.2, hput.2]
    unfold Store.getE
    rw [Store.get_put_ne _ _ _ _ (fun he => hk2 (List.append_cancel_left he).symm)]
    rw [Store.get_put_self]
  · have hdel := Delete_open db (db.Put s pool k v).2.1 pool3 k hopen
    rw [Get_open _ _ _ _ hopen, hdel.2]
    unfold Store.getE
    rw [Store.get_del_self]
  · have hc2 : (db.Close).2 = { db with dbClosed := true } := by
      unfold Database.Close
      rw [hopen]
      rfl
    rw [hc2]
    rfl

/-- C8 witness: the round-trip theorem at digest [7], key [1],
value [2], interposed Put of key [3]. -/
theorem C8_witness :
    (Database.Put ⟨[7], false⟩ [] [] [1] [2]).1 = none ∧
    (Database.Get ⟨[7], false⟩ (Database.Put ⟨[7], false⟩ [] [] [1] [2]).2.1 [] [1]).1
      = .ok [2] ∧
    (Database.Get ⟨[7], false⟩
        (Database.Put ⟨[7], false⟩
          (Database.Put ⟨[7], false⟩ [] [] [1] [2]).2.1 [] [3] [4]).2.1 [] [1]).1
      = .ok [2] ∧
    (Database.Get ⟨[7], false⟩
        (Database.Delete ⟨[7], false⟩
          (Database.Put ⟨[7], false⟩ [] [] [1] [2]).2.1 [] [1]).2.1 [] [1]).1
      = .error .notFound ∧
    (Database.Get (Database.Close ⟨[7], false⟩).2
        (Database.Put ⟨[7], false⟩ [] [] [1] [2]).2.1 [] [1]).1
      = .error .closed := by
  have h := C8_round_trip ⟨[7], false⟩ [] [] [] [] [] [1] [2] rfl (by decide)
  exact ⟨h.1, h.2.1, h.2.2.1 [3] [4] (by decide), h.2.2.2.1, h.2.2.2.2⟩

/-- C6: Replay applies the in-memory log in original insertion order
using the unprefixed keys as recorded (Delete for delete records, Put
otherwise); if every write succeeds it ends in the state the ordered
application produces, and if some write fails, Replay returns that
write's error with the prior writes applied and the remaining records
unattempted — no rollback. -/
theorem C6_replay (σ : Type) (w : KeyValueWriter σ) (b : batch) (st : σ) :
    (∀ st2, runAll w b.writes.data st = .ok st2 → batch.Replay w b st = (st2, none)) ∧
    (∀ pre kv post st2 e, b.writes.data = pre ++ kv :: post →
      runAll w pre st = .ok st2 → applyKV w st2 kv = .error e →
      batch.Replay w b st = (st2, some e)) := by
  constructor
  · intro st2 h
    unfold batch.Replay
    exact replayList_of_runAll_ok w _ st st2 h
  · intro pre kv post st2 e hdata hpre hfail
    unfold batch.Replay
    rw [hdata]
    exact replayList_halts w pre kv post st st2 e hpre hfail

/-- C6 witness: a fully successful replay of a two-record log, and a
replay against a rejecting target that halts at the middle record with
its error, the first write still applied and the third unattempted. -/
theorem C6_witness :
    batch.Replay idealWriter ⟨⟨[]⟩, ⟨[⟨[1], [2], false⟩, ⟨[3], [], true⟩], 4⟩⟩ ([] : Store)
      = ([([1], [2])], none) ∧
    batch.Replay failWriter
        ⟨⟨[]⟩, ⟨[⟨[1], [2], false⟩, ⟨[9], [3], false⟩, ⟨[4], [5], false⟩], 4⟩⟩ ([] : Store)
      = ([([1], [2])], some .notFound) :=
  ⟨(C6_replay Store idealWriter ⟨⟨[]⟩, ⟨[⟨[1], [2], false⟩, ⟨[3], [], true⟩], 4⟩⟩ []).1
      [([1], [2])] rfl,
   (C6_replay Store failWriter
        ⟨⟨[]⟩, ⟨[⟨[1], [2], false⟩, ⟨[9], [3], false⟩, ⟨[4], [5], false⟩], 4⟩⟩ []).2
      [⟨[1], [2], false⟩] ⟨[9], [3], false⟩ [⟨[4], [5], false⟩]
      [([1], [2])] .notFound rfl rfl rfl⟩

/-- C9: after Reset a batch has zero pending writes whatever its prior
state (its replay does nothing), the underlying batch is reset, and
the retained capacity follows the excess-capacity policy: shrunk by
`CapacityReductionFactor` when it exceeded `MaxExcessCapacityFactor`
times the length, kept otherwise. -/
theorem C9_reset (b : batch) :
    (batch.Reset b).writes.data = [] ∧
    (batch.Reset b).Batch = ⟨[]⟩ ∧
    (batch.Reset b).writes.cap
      = (if b.writes.data.length * MaxExcessCapacityFactor < b.writes.cap
         then b.writes.cap / CapacityReductionFactor
         else b.writes.cap) ∧
    (∀ (σ : Type) (w : KeyValueWriter σ) (st : σ),
      batch.Replay w (batch.Reset b) st = (st, none)) := by
  have hdata : (batch.Reset b).writes.data = [] := by
    unfold batch.Reset
    dsimp only
    split <;> rfl
  refine ⟨hdata, rfl, ?_, ?_⟩
  · unfold batch.Reset
    dsimp only
    split <;> simp [*]
  · intro σ w st
    unfold batch.Replay
    rw [hdata]
    rfl

/-- C10: batch Put and Delete append the record to the in-memory
replay log before the embedded underlying-batch call and independently
of its outcome; the embedded call's error is forwarded verbatim; and a
subsequent Replay re-applies the appended record after the earlier
log. -/
theorem C10_log_unconditional (db : Database) (pool : List Buffer) (b : batch) (k v : Bytes)
    (fput : Bytes → Bytes → InnerBatch × Option DBError)
    (fdel : Bytes → InnerBatch × Option DBError) :
    (batch.putWith db pool b k v fput).2.1.writes.data = b.writes.data ++ [⟨k, v, false⟩] ∧
    (batch.putWith db pool b k v fput).1 = (fput (db.dbPrefix ++ k) v).2 ∧
    (batch.delWith db pool b k fdel).2.1.writes.data = b.writes.data ++ [⟨k, [], true⟩] ∧
    (batch.delWith db pool b k fdel).1 = (fdel (db.dbPrefix ++ k)).2 ∧
    (∀ (σ : Type) (w : KeyValueWriter σ) (st st2 : σ),
      runAll w b.writes.data st = .ok st2 →
      batch.Replay w (batch.putWith db pool b k v fput).2.1 st
        = match w.put st2 k v with
          | .ok st3 => (st3, none)
          | .error e => (st2, some e)) := by
  have hpk1 : (db.physKey pool k).1 = db.dbPrefix ++ k := physKey_fst db pool k
  rcases hpk : db.physKey pool k with ⟨pk, pool1⟩
  rw [hpk] at hpk1
  dsimp at hpk1
  subst hpk1
  rcases hfp : fput (db.dbPrefix ++ k) v with ⟨ib2, err2⟩
  rcases hfd : fdel (db.dbPrefix ++ k) with ⟨ib3, err3⟩
  unfold batch.putWith batch.delWith
  rw [hpk]
  dsimp only
  rw [hfp, hfd]
  dsimp only
  refine ⟨rfl, rfl, rfl, rfl, ?_⟩
  intro σ w st st2 h
  unfold batch.Replay
  show replayList w (b.writes.data ++ [⟨k, v, false⟩]) st = _
  rw [replayList_append w b.writes.data [⟨k, v, false⟩] st st2 h, replayList_cons]
  show (match w.put st2 k v with
        | .ok st3 => replayList w [] st3
        | .error e => (st2, some e)) = _
  cases w.put st2 k v <;> rfl

/-- C10 witness: with an embedded underlying-batch call that errors,
the record is still appended to the log, the error is forwarded, and a
subsequent replay against the ideal target applies the record. -/
theorem C10_witness :
    (batch.putWith ⟨[], false⟩ [] ⟨⟨[]⟩, ⟨[], 0⟩⟩ [1] [2]
        (fun _ _ => (⟨[]⟩, some .notFound))).2.1.writes.data = [] ++ [⟨[1], [2], false⟩] ∧
    (batch.putWith ⟨[], false⟩ [] ⟨⟨[]⟩, ⟨[], 0⟩⟩ [1] [2]
        (fun _ _ => (⟨[]⟩, some .notFound))).1 = some .notFound ∧
    (batch.delWith ⟨[], false⟩ [] ⟨⟨[]⟩, ⟨[], 0⟩⟩ [1]
        (fun _ => (⟨[]⟩, some .notFound))).2.1.writes.data = [] ++ [⟨[1], [], true⟩] ∧
    (batch.delWith ⟨[], false⟩ [] ⟨⟨[]⟩, ⟨[], 0⟩⟩ [1]
        (fun _ => (⟨[]⟩, some .notFound))).1 = some .notFound ∧
    batch.Replay idealWriter
        (batch.putWith ⟨[], false⟩ [] ⟨⟨[]⟩, ⟨[], 0⟩⟩ [1] [2]
          (fun _ _ => (⟨[]⟩, some .notFound))).2.1 ([] : Store)
      = ([([1], [2])], none) := by
  have h := C10_log_unconditional ⟨[], false⟩ [] ⟨⟨[]⟩, ⟨[], 0⟩⟩ [1] [2]
    (fun _ _ => (⟨[]⟩, some .notFound)) (fun _ => (⟨[]⟩, some .notFound))
  refine ⟨h.1, ?_, h.2.2.1, ?_, ?_⟩
  · rw [h.2.1]
  · rw [h.2.2.2.1]
  · have h5 := h.2.2.2.2 Store idealWriter [] [] rfl
    rw [h5]
    rfl
